import Mathlib

/-!
Verification development for the git-monitor-app repository (Go).

Go strings are modelled as lists of characters (`GoStr`); Go functions that
shell out or perform I/O are modelled as pure functions over explicit
environments that record the outcome of each external call.  The monitor's
check cycle additionally records a trace of the externally observable events
(state assignments, collaborator calls, object-store puts) so that ordering
claims can be stated.
-/

/-- Go strings modelled as lists of characters. -/
abbrev GoStr := List Char

/-- Helper turning a Lean string literal into a `GoStr`. -/
def gs (s : String) : GoStr := s.data

/-- Models strings.Split(s, sep) for a one-character separator `c`:
splits `s` at every occurrence of `c` (the separators are dropped). -/
def splitOnC (c : Char) : GoStr → List GoStr
  | [] => [[]]
  | x :: xs =>
    match splitOnC c xs with
    | [] => [[]]
    | f :: rest => if x = c then [] :: f :: rest else (x :: f) :: rest

/-- Models strings.Join(parts, sep) for a one-character separator. -/
def intercalateC (c : Char) : List GoStr → GoStr
  | [] => []
  | [a] => a
  | a :: rest => a ++ c :: intercalateC c rest

/-- Models strings.SplitN(s, sep, n) for a one-character separator and n > 0:
at most `n` pieces, the last piece being the unsplit remainder. -/
def goSplitN (c : Char) (s : GoStr) (n : Nat) : List GoStr :=
  let ps := splitOnC c s
  if ps.length ≤ n then ps
  else ps.take (n - 1) ++ [intercalateC c (ps.drop (n - 1))]

/-- Models strings.TrimSpace: whitespace removed from both ends. -/
def trimSpace (s : GoStr) : GoStr :=
  ((s.dropWhile Char.isWhitespace).reverse.dropWhile Char.isWhitespace).reverse

/-- Models strings.Trim(s, cutset) for a one-character cutset: the character
`c` removed from both ends. -/
def trimChar (c : Char) (s : GoStr) : GoStr :=
  ((s.dropWhile (· = c)).reverse.dropWhile (· = c)).reverse

/-- True when the Go string starts with the character `c`
(models strings.HasPrefix with a one-character pattern). -/
def startsWithChar (c : Char) : GoStr → Bool
  | [] => false
  | x :: _ => x = c

/-! ## gitutil.GetChangedFilesInCommit

The function shells out to `git show --pretty= --name-status <hash>` and
parses its output line by line.  The parsing loop is embedded below over the
list of output lines; the external `git` invocation itself is the collaborator
that produces those lines. -/

/-- Models one iteration of the scanner loop in GetChangedFilesInCommit:
trim the line, skip empty lines, split into status and file name, take the
rename/copy destination for statuses starting with R or C, skip status D,
and append the single path otherwise. -/
def processNameStatusLine (files : List GoStr) (rawLine : GoStr) : List GoStr :=
  let line := trimSpace rawLine
  if line = [] then files
  else
    let parts := goSplitN '\t' line 2
    if parts.length = 2 then
      let status := parts.getD 0 []
      let fileName := parts.getD 1 []
      if startsWithChar 'R' status then
        let renameParts := goSplitN '\t' line 3
        if renameParts.length = 3 then files ++ [renameParts.getD 2 []] else files
      else if startsWithChar 'C' status then
        let copyParts := goSplitN '\t' line 3
        if copyParts.length = 3 then files ++ [copyParts.getD 2 []] else files
      else if status ≠ gs "D" then files ++ [fileName]
      else files
    else files

/-- Models the parsing loop of gitutil.GetChangedFilesInCommit applied to the
lines of the name-status listing produced by git. -/
def getChangedFilesInCommit (lines : List GoStr) : List GoStr :=
  lines.foldl processNameStatusLine []

/-- A structured line of a name-status listing, used to state what the parser
produces: a rename line (status, source, destination), a copy line, a deletion
line, any other status line with its single path, or a blank line. -/
inductive NSEntry
  | rename (status old new : GoStr)
  | copy (status old new : GoStr)
  | delete (path : GoStr)
  | other (status path : GoStr)
  | blank
deriving DecidableEq

/-- The raw text line a structured entry stands for (fields joined by tabs;
a deletion line has status exactly D). -/
def NSEntry.render : NSEntry → GoStr
  | .rename s o n => s ++ '\t' :: (o ++ '\t' :: n)
  | .copy s o n => s ++ '\t' :: (o ++ '\t' :: n)
  | .delete p => gs "D" ++ '\t' :: p
  | .other s p => s ++ '\t' :: p
  | .blank => []

/-- A field of a name-status line contains no tab. -/
def fieldOk (f : GoStr) : Bool := f.all (fun c => decide (c ≠ '\t'))

/-- The final field of a line: tab-free, non-empty, not ending in whitespace
(so that TrimSpace leaves the line unchanged). -/
def lastFieldOk (f : GoStr) : Bool :=
  fieldOk f && decide (f ≠ []) && !(f.getLastD ' ').isWhitespace

/-- A status field: tab-free, non-empty, not starting with whitespace. -/
def statusOk (s : GoStr) : Bool :=
  fieldOk s && decide (s ≠ []) && !(s.headD ' ').isWhitespace

/-- Well-formedness of a structured name-status line: rename statuses start
with R, copy statuses with C, other statuses are none of R.../C.../D, and
fields are tab-free with no surrounding whitespace at the line ends. -/
def NSEntry.wf : NSEntry → Bool
  | .rename s o n => statusOk s && startsWithChar 'R' s && fieldOk o && lastFieldOk n
  | .copy s o n => statusOk s && startsWithChar 'C' s && fieldOk o && lastFieldOk n
  | .delete p => lastFieldOk p
  | .other s p =>
      statusOk s && !startsWithChar 'R' s && !startsWithChar 'C' s &&
        decide (s ≠ gs "D") && lastFieldOk p
  | .blank => true

/-- What one listing line contributes to the ChangeSet according to the spec:
rename and copy lines contribute only the destination, deletions and blanks
nothing, and every other status line its single path. -/
def NSEntry.contribution : NSEntry → List GoStr
  | .rename _ _ n => [n]
  | .copy _ _ n => [n]
  | .delete _ => []
  | .other _ p => [p]
  | .blank => []

/-- The ChangeSet the spec describes for a structured listing, in order. -/
def specChangeSet : List NSEntry → List GoStr
  | [] => []
  | e :: es => e.contribution ++ specChangeSet es

/-! ## validator.Validate

The validator checks each changed path against the structure and naming
rules and then checks that the required root files are present in the
repository index.  gitutil.CheckFileExists (a `git ls-files` call) is the
external collaborator modelled by the index membership function `idx`.
The regular expressions of the source are translated to executable
recognisers of the same languages.  Log output and the per-file
hasFileError flag (which only gates log output) are not modelled. -/

/-- Models the allowedRootFiles map of the validator. -/
def allowedRootFiles (b : GoStr) : Bool :=
  decide (b = gs "README.md") || decide (b = gs ".gitignore") || decide (b = gs "config.toml")

/-- Models the requiredRootFiles slice of the validator. -/
def requiredRootFiles : List GoStr := [gs "README.md", gs ".gitignore"]

/-- The character class a-zA-Z0-9_.,- used by the validator regexes. -/
def isNameChar (c : Char) : Bool :=
  c.isAlpha || c.isDigit || decide (c = '_') || decide (c = '.') || decide (c = ',') || decide (c = '-')

/-- Models projectExtRegex: true iff the string ends with one of the
project-file extensions (the regex is anchored only at the end). -/
def projectExtMatch (s : GoStr) : Bool :=
  [gs ".flp", gs ".rpp", gs ".song", gs ".project", gs ".cpr", gs ".ptx",
    gs ".logicx", gs ".als"].any (fun e => e.isSuffixOf s)

/-- Models exportExtRegex: true iff the string ends with one of the
export-file extensions. -/
def exportExtMatch (s : GoStr) : Bool :=
  [gs ".mp3", gs ".wav", gs ".flac"].any (fun e => e.isSuffixOf s)

/-- Models exportStatusRegex: anchored at both ends, so exact membership in
the status word list. -/
def exportStatusMatch (s : GoStr) : Bool :=
  [gs "progress", gs "unmixed", gs "rough", gs "mixed", gs "finalmix",
    gs "roughmaster", gs "mastered", gs "finalmaster"].any (fun e => decide (s = e))

/-- Models projectFolderRegex, the anchored pattern
name+ dash name+ dash name+ dash digits(2 or 3) literal bpm-prodby. name+
where name+ is a non-empty run over the class a-zA-Z0-9_.,- (the group
alternative comma-list of the source is subsumed because the comma is in the
class).  MatchString holds iff some decomposition exists; the three dash
separator positions i1 < i2 < i3 and the digit count k are searched. -/
def projectFolderMatch (s : GoStr) : Bool :=
  let n := s.length
  (List.range n).any fun i1 =>
    decide (s.getD i1 ' ' = '-') &&
    ((List.range n).any fun i2 =>
      decide (i1 < i2) && decide (s.getD i2 ' ' = '-') &&
      ((List.range n).any fun i3 =>
        decide (i2 < i3) && decide (s.getD i3 ' ' = '-') &&
        ([2, 3].any fun k =>
          let g1 := s.take i1
          let g2 := (s.drop (i1 + 1)).take (i2 - i1 - 1)
          let g3 := (s.drop (i2 + 1)).take (i3 - i2 - 1)
          let d := (s.drop (i3 + 1)).take k
          let lit := (s.drop (i3 + 1 + k)).take 11
          let g5 := s.drop (i3 + 1 + k + 11)
          decide (g1 ≠ []) && g1.all isNameChar &&
          decide (g2 ≠ []) && g2.all isNameChar &&
          decide (g3 ≠ []) && g3.all isNameChar &&
          decide (d.length = k) && d.all Char.isDigit &&
          decide (lit = gs "bpm-prodby.") &&
          decide (g5 ≠ []) && g5.all isNameChar)))

/-- Models the inline export-name regex, anchored, group one any text then a
dash then group two a non-empty dash-free run to the end.  Go submatch
semantics make the greedy first group extend to the final dash, so the match
splits at the last dash; there is no match when the string has no dash or
ends with a dash. -/
def lastDashSplit (s : GoStr) : Option (GoStr × GoStr) :=
  let r := s.reverse
  let g2r := r.takeWhile (fun c => decide (c ≠ '-'))
  if g2r.length = r.length then none
  else if g2r = [] then none
  else some ((r.drop (g2r.length + 1)).reverse, g2r.reverse)

/-- Models path/filepath.Ext: the suffix from the final dot of the final
slash-separated element, including the dot; empty when that element has no
dot. -/
def goExt (p : GoStr) : GoStr :=
  let seg := p.reverse.takeWhile (fun c => decide (c ≠ '/'))
  let t := seg.takeWhile (fun c => decide (c ≠ '.'))
  if t.length = seg.length then [] else '.' :: t.reverse

/-- Models strings.TrimSuffix. -/
def goTrimSuffix (s suf : GoStr) : GoStr :=
  if suf.isSuffixOf s then s.take (s.length - suf.length) else s

/-- Models path/filepath.Dir for the clean, relative, slash-separated paths
git emits: everything before the final slash, or dot when there is none. -/
def goDir (p : GoStr) : GoStr :=
  let parts := splitOnC '/' p
  if parts.length ≤ 1 then gs "." else intercalateC '/' parts.dropLast

/-- Models path/filepath.Base for such paths: the final slash-separated
element, or dot for the empty path. -/
def goBase (p : GoStr) : GoStr :=
  if p = [] then gs "." else (splitOnC '/' p).getLastD []

/-- Models strings.ToLower for the ASCII names the validator handles. -/
def goToLower (s : GoStr) : GoStr := s.map Char.toLower

/-- The validator accumulator: the isValid flag and the violations list the
addError closure of the source mutates. -/
structure ValState where
  isValid : Bool
  errors : List GoStr
deriving DecidableEq

/-- Models the addError closure in Validate: append the message and clear
the validity flag. -/
def addError (msg : GoStr) (st : ValState) : ValState :=
  { isValid := false, errors := st.errors ++ [msg] }

/-- An if-guarded addError, the shape of every error site in the source
(conditions never depend on the accumulator). -/
def condAdd (b : Bool) (msg : GoStr) (st : ValState) : ValState :=
  if b then addError msg st else st

/-- Message of the no-spaces rule (formatted as in the source, without the
surrounding quotes). -/
def msgSpaces (f : GoStr) : GoStr := gs "Path contains spaces: " ++ f

def msgRoot (f : GoStr) : GoStr := gs "Unexpected file in root directory: " ++ f

def msgSrcLower (part f : GoStr) : GoStr :=
  gs "src directory component must be lowercase: " ++ part ++ gs " in path " ++ f

def msgFolderFormat (folder f : GoStr) : GoStr :=
  gs "Invalid project folder name format: " ++ folder ++ gs " in path " ++ f

def msgBaseMismatch (folder baseName f : GoStr) : GoStr :=
  gs "Project filename base must match folder name. Expected " ++ folder ++
    gs ".*, found " ++ baseName ++ gs " in path " ++ f

def msgProjExt (baseName f : GoStr) : GoStr :=
  gs "Invalid file extension for project file " ++ baseName ++
    gs ". Allowed: .flp, .rpp, .song, .project, .cpr, .ptx, .logicx, .als. Path: " ++ f

def msgExportsLower (part f : GoStr) : GoStr :=
  gs "exports directory component must be lowercase: " ++ part ++ gs " in path " ++ f

def msgExportFormat (name f : GoStr) : GoStr :=
  gs "Export filename " ++ name ++
    gs " does not match expected format project_base-status. Path: " ++ f

def msgExportBase (folder name f : GoStr) : GoStr :=
  gs "Export filename base must match project folder name. Expected " ++ folder ++
    gs "-status.*, found " ++ name ++ gs " in path " ++ f

def msgExportStatus (status name f : GoStr) : GoStr :=
  gs "Invalid status identifier " ++ status ++ gs " in export filename " ++ name ++
    gs ". Allowed: progress, unmixed, rough, mixed, finalmix, roughmaster, mastered, finalmaster. Path: " ++ f

def msgExportExt (name f : GoStr) : GoStr :=
  gs "Invalid file extension for export file " ++ name ++
    gs ". Allowed: .mp3, .wav, .flac. Path: " ++ f

def msgInsideProject (inside f folder : GoStr) : GoStr :=
  gs "Unexpected file or directory inside project folder: " ++ inside ++
    gs " in path " ++ f ++ gs ". Only project file and exports dir allowed directly under " ++ folder

def msgDirectInProjects (f : GoStr) : GoStr :=
  gs "Files are not allowed directly inside src/projects/. Place them in a named project folder: " ++ f

def msgTopLevel (f : GoStr) : GoStr :=
  gs "Unexpected top-level file or directory: " ++ f ++
    gs ". Only src/, README.md, config.toml, .gitignore allowed."

def msgRequired (f : GoStr) : GoStr :=
  gs "Required file " ++ f ++ gs " not found in repository index."

/-- Models the file-directly-in-project-folder checks of Validate: the base
name without extension must equal the folder name, and the extension must be
a project-file extension. -/
def checkDirectFile (projectFolder baseName file : GoStr) (st : ValState) : ValState :=
  let ext := goExt baseName
  let baseNameNoExt := goTrimSuffix baseName ext
  let st3 := condAdd (decide (baseNameNoExt ≠ projectFolder))
    (msgBaseMismatch projectFolder baseName file) st
  condAdd (!projectExtMatch (goToLower baseName)) (msgProjExt baseName file) st3

/-- Models the file-inside-exports checks of Validate: the export name must
split as base dash status with the base equal to the folder name and a known
status word, and the extension must be an export extension (this last check
runs whether or not the name split succeeded, as in the source). -/
def checkExportFile (projectFolder exportBaseName file : GoStr) (st : ValState) : ValState :=
  let exportExt := goExt exportBaseName
  let exportBaseNameNoExt := goTrimSuffix exportBaseName exportExt
  let st4 :=
    match lastDashSplit exportBaseNameNoExt with
    | none => addError (msgExportFormat exportBaseName file) st
    | some (exportBase, exportStatus) =>
      let st4a := condAdd (decide (exportBase ≠ projectFolder))
        (msgExportBase projectFolder exportBaseName file) st
      condAdd (!exportStatusMatch exportStatus)
        (msgExportStatus exportStatus exportBaseName file) st4a
  condAdd (!exportExtMatch (goToLower exportBaseName)) (msgExportExt exportBaseName file) st4

/-- Models the checks of Validate on the path inside a well-named project
folder: nothing when only the folder itself is listed, the direct project
file checks, the exports subtree checks (with the dead lowercase check on
the exports component, kept from the source), and otherwise the
unexpected-content violation. -/
def checkInsideProject (parts : List GoStr) (projectFolder file : GoStr) (st : ValState) : ValState :=
  let pathInsideProject := intercalateC '/' (parts.drop 3)
  if pathInsideProject = [] then st
  else if !(pathInsideProject.contains '/') then
    checkDirectFile projectFolder (parts.getLastD []) file st
  else if (gs "exports/").isPrefixOf pathInsideProject then
    let st3 := condAdd (decide (parts.getD 3 [] ≠ gs "exports"))
      (msgExportsLower (parts.getD 3 []) file) st
    if 4 < parts.length then checkExportFile projectFolder (parts.getLastD []) file st3
    else st3
  else addError (msgInsideProject pathInsideProject file projectFolder) st

/-- Models the checks of Validate on a path under src/: the (dead) lowercase
check on the first component, the project-folder name check under
src/projects, the inside-project checks, the no-files-directly-in-projects
violation, and a silent skip for other src subtrees. -/
def checkSrcPath (parts : List GoStr) (file : GoStr) (st : ValState) : ValState :=
  let st2 := condAdd (decide (parts.getD 0 [] ≠ gs "src")) (msgSrcLower (parts.getD 0 []) file) st
  if decide (1 < parts.length) && decide (parts.getD 1 [] = gs "projects") then
    if 2 < parts.length then
      let projectFolder := parts.getD 2 []
      if !projectFolderMatch projectFolder then addError (msgFolderFormat projectFolder file) st2
      else checkInsideProject parts projectFolder file st2
    else addError (msgDirectInProjects file) st2
  else st2

/-- Models the body of the changed-files loop of Validate for one file:
the no-spaces check, then the root, src/ or unexpected-top-level cases.
filepath.ToSlash is the identity on the slash paths git emits. -/
def checkFile (file : GoStr) (st : ValState) : ValState :=
  let st1 := condAdd (file.contains ' ') (msgSpaces file) st
  let filePath := file
  let dir := goDir filePath
  let base := goBase filePath
  if dir = gs "." then condAdd (!allowedRootFiles base) (msgRoot file) st1
  else if (gs "src/").isPrefixOf filePath then checkSrcPath (splitOnC '/' filePath) file st1
  else addError (msgTopLevel file) st1

/-- Models validator.Validate: run the per-file checks over the changed
files (a no-op for an empty list, as in the source, which only prints there)
and then the required-root-files check against the repository index `idx`
(gitutil.CheckFileExists).  Returns the validity flag and the violations. -/
def Validate (idx : GoStr → Bool) (changedFiles : List GoStr) : Bool × List GoStr :=
  let st : ValState := { isValid := true, errors := [] }
  let st := changedFiles.foldl (fun st f => checkFile f st) st
  let st := requiredRootFiles.foldl (fun st f => condAdd (!idx f) (msgRequired f) st) st
  (st.isValid, st.errors)

/-! ## backup.RunBackup and the gzip pipe

RunBackup builds the object key, starts the external archive process,
connects it through the gzip pipe to the streaming upload, and waits for the
archive process only after the upload call returned.  External effects (SDK
config load, pipe creation, process start, the PutObject call keyed by the
object key, the process wait) are modelled by an environment of outcomes.
The GzipPipe helper itself (io.Pipe based) never returns an error. -/

/-- Outcome of a read of the io.Pipe reader end after the writer end was
closed: clean end of data, or the attached failure. -/
inductive PipeReadResult
  | eof
  | failed (e : GoStr)
deriving DecidableEq

/-- Models the goroutine of GzipPipe together with its deferred finalizer:
the copy from the source into the gzip writer either completes or fails with
an error, the deferred block then closes the gzip writer (recording its close
error only when the copy succeeded) and closes the pipe writer with the
resulting error attached.  Returns the error the pipe write end is closed
with. -/
def gzipPipeCloseErr (copyResult : Except GoStr Unit) (gzipCloseErr : Option GoStr) : Option GoStr :=
  match copyResult with
  | .error e => some e
  | .ok _ => gzipCloseErr

/-- Models a read of the pipe reader end once the write end is closed:
io.Pipe reports the attached error, or end of data when none was attached. -/
def pipeReadAfterClose (closeErr : Option GoStr) : PipeReadResult :=
  match closeErr with
  | some e => .failed e
  | none => .eof

/-- Models config.BackupConfig (the Prefix field is named pfx here). -/
structure BackupConfig where
  bucket : GoStr
  endpointURL : GoStr
  region : GoStr
  pfx : GoStr
  accessKeyID : GoStr
  secretKey : GoStr

/-- Models the object-key construction of RunBackup: the file name is
commit-hash.tar.gz, prefixed by the configured prefix trimmed of slashes
when that leaves something. -/
def mkS3Key (pfx commitHash : GoStr) : GoStr :=
  let backupFilename := gs "commit-" ++ commitHash ++ gs ".tar.gz"
  if pfx ≠ [] then
    let cleanPfx := trimChar '/' pfx
    if cleanPfx ≠ [] then cleanPfx ++ '/' :: backupFilename else backupFilename
  else backupFilename

/-- Events the check cycle and the pipeline emit, in execution order:
assignments to lastKnownHash, the changed-files fetch, the Validate call,
the RunBackup call and the object-store put. -/
inductive CycleEvent
  | setHash (h : GoStr)
  | fetchChanges (h : GoStr)
  | validateCall (files : List GoStr)
  | runBackupCall (h : GoStr)
  | put (key : GoStr)
deriving DecidableEq

/-- Outcomes of the external calls RunBackup performs, in source order. -/
structure BackupEnv where
  sdkLoad : Except GoStr Unit
  stdoutPipe : Except GoStr Unit
  startArchive : Except GoStr Unit
  putObject : GoStr → Except GoStr Unit
  waitArchive : Except GoStr Unit

/-- Models backup.RunBackup: bucket check, SDK config load, key
construction, archive process start, gzip pipe setup (never fails), the
PutObject call, then the wait on the archive process; the upload error has
priority over the archive error.  Returns the result and the emitted put
events. -/
def RunBackup (cfg : BackupConfig) (commitHash : GoStr) (env : BackupEnv) :
    Except GoStr Unit × List CycleEvent :=
  if cfg.bucket = [] then
    (.error (gs "backup config error: S3 bucket name is required"), [])
  else
    match env.sdkLoad with
    | .error e => (.error (gs "failed to load AWS SDK config: " ++ e), [])
    | .ok _ =>
      let s3Key := mkS3Key cfg.pfx commitHash
      match env.stdoutPipe with
      | .error e => (.error (gs "failed to get stdout pipe for git archive: " ++ e), [])
      | .ok _ =>
        match env.startArchive with
        | .error e => (.error (gs "failed to start git archive: " ++ e), [])
        | .ok _ =>
          let uploadErr := env.putObject s3Key
          let archiveErr := env.waitArchive
          match uploadErr with
          | .error e => (.error (gs "failed to upload to S3: " ++ e), [.put s3Key])
          | .ok _ =>
            match archiveErr with
            | .error e => (.error (gs "git archive command failed after upload: " ++ e), [.put s3Key])
            | .ok _ => (.ok (), [.put s3Key])

/-- The object keys of the put events in a trace, in order. -/
def putKeys (evs : List CycleEvent) : List GoStr :=
  evs.foldr (fun e acc => match e with | .put k => k :: acc | _ => acc) []

/-- Whether a trace invokes the archive pipeline at all (a RunBackup call or
a put). -/
def callsPipeline (evs : List CycleEvent) : Bool :=
  evs.any (fun e => match e with | .runBackupCall _ => true | .put _ => true | _ => false)

/-! ## monitor.handleCommitCheck

The debounced check cycle.  The processing mutex is the tokenHeld input
(TryLock fails iff it is already held); collaborator outcomes are the
environment.  The result records the final tracked hash, whether the token
was acquired and then released by the deferred unlock, the emitted events
and the exit path taken. -/

/-- The exit paths of one check cycle. -/
inductive ExitPath
  | tokenBusy
  | hashError
  | noNewCommit
  | emptyHash
  | enumFailed
  | invalid
  | backupFailed
  | backupOk
deriving DecidableEq

/-- Result of one check cycle. -/
structure CycleResult where
  finalHash : GoStr
  acquired : Bool
  released : Bool
  events : List CycleEvent
  exit : ExitPath
deriving DecidableEq

/-- Collaborator outcomes one check cycle consumes:
gitutil.GetCurrentCommitHash, gitutil.GetChangedFilesInCommit,
validator.Validate and backup.RunBackup. -/
structure CycleEnv where
  current : Except GoStr GoStr
  changed : GoStr → Except GoStr (List GoStr)
  validateFn : List GoStr → Bool × List GoStr
  backupFn : GoStr → Except GoStr Unit × List CycleEvent

/-- Models monitor.handleCommitCheck.  TryLock at entry (return at once when
the token is held), query the current hash, the new-commit test, the
optimistic advance, the changed-files fetch with rollback on failure,
validation, and the backup run whose failure is only logged; the deferred
unlock releases the token on every exit path after acquisition. -/
def handleCommitCheck (tokenHeld : Bool) (lastKnownHash : GoStr) (env : CycleEnv) : CycleResult :=
  if tokenHeld then
    { finalHash := lastKnownHash, acquired := false, released := false,
      events := [], exit := .tokenBusy }
  else
    match env.current with
    | .error _ =>
      { finalHash := lastKnownHash, acquired := true, released := true,
        events := [], exit := .hashError }
    | .ok currentHash =>
      if currentHash ≠ [] ∧ currentHash ≠ lastKnownHash then
        let originalLastHash := lastKnownHash
        match env.changed currentHash with
        | .error _ =>
          { finalHash := originalLastHash, acquired := true, released := true,
            events := [.setHash currentHash, .fetchChanges currentHash, .setHash originalLastHash],
            exit := .enumFailed }
        | .ok changedFiles =>
          let v := env.validateFn changedFiles
          if v.fst then
            let b := env.backupFn currentHash
            match b.fst with
            | .ok _ =>
              { finalHash := currentHash, acquired := true, released := true,
                events := [.setHash currentHash, .fetchChanges currentHash,
                  .validateCall changedFiles, .runBackupCall currentHash] ++ b.snd,
                exit := .backupOk }
            | .error _ =>
              { finalHash := currentHash, acquired := true, released := true,
                events := [.setHash currentHash, .fetchChanges currentHash,
                  .validateCall changedFiles, .runBackupCall currentHash] ++ b.snd,
                exit := .backupFailed }
          else
            { finalHash := currentHash, acquired := true, released := true,
              events := [.setHash currentHash, .fetchChanges currentHash,
                .validateCall changedFiles],
              exit := .invalid }
      else if currentHash = lastKnownHash then
        { finalHash := lastKnownHash, acquired := true, released := true,
          events := [], exit := .noNewCommit }
      else
        { finalHash := lastKnownHash, acquired := true, released := true,
          events := [], exit := .emptyHash }

/-! ## monitor.Start up to the event loop

Startup checks the metadata directory, reads the initial hash (a failure is
only a warning and starts fresh), constructs the watcher, and adds watches
over the fixed path list; watch-add failures are only counted and warned
about.  The commented-out fatal check for an empty watch list is absent from
the source, so no number of watch failures is fatal. -/

/-- Outcome of startup: one of the two fatal exits, or entry into the event
loop with the initial tracked hash and the count of watch-add failures. -/
inductive StartOutcome
  | fatalGitDirMissing
  | fatalWatcher
  | eventLoop (initialHash : GoStr) (watchErrors : Nat)
deriving DecidableEq

/-- Outcomes of the external calls Start performs: the os.Stat of the
metadata directory, the initial hash query, watcher construction, the
per-path os.Stat and the per-path addRecursiveWatch. -/
structure StartEnv where
  gitDirExists : Bool
  initialHash : Except GoStr GoStr
  watcherOk : Bool
  statOk : GoStr → Bool
  addRecursiveWatchOk : GoStr → Bool

/-- The fixed watch path list of monitor.Start: the metadata directory and
its refs subdirectory. -/
def pathsToWatch (repoPath : GoStr) : List GoStr :=
  [repoPath ++ gs "/.git", repoPath ++ gs "/.git/refs"]

/-- Models monitor.Start up to entering the event loop. -/
def Start (repoPath : GoStr) (env : StartEnv) : StartOutcome :=
  if !env.gitDirExists then .fatalGitDirMissing
  else
    let lastKnownHash := match env.initialHash with | .ok h => h | .error _ => []
    if !env.watcherOk then .fatalWatcher
    else
      let watchErrors := (pathsToWatch repoPath).foldl
        (fun n p => if env.statOk p then (if env.addRecursiveWatchOk p then n else n + 1) else n) 0
      .eventLoop lastKnownHash watchErrors

/-- Whether a startup outcome terminates the process before the event loop. -/
def StartOutcome.isFatal : StartOutcome → Bool
  | .eventLoop _ _ => false
  | _ => true

/-! ## Validator invariant machinery (for C9 and C10) -/

/-- The internal consistency invariant of the validator accumulator: the
validity flag tracks emptiness of the violations list. -/
def ValInv (st : ValState) : Prop := st.isValid = st.errors.isEmpty

lemma valInv_addError (msg : GoStr) (st : ValState) (_h : ValInv st) :
    ValInv (addError msg st) := by
  unfold ValInv addError
  cases st.errors <;> rfl

lemma valInv_condAdd (b : Bool) (msg : GoStr) (st : ValState) (h : ValInv st) :
    ValInv (condAdd b msg st) := by
  unfold condAdd
  split
  · exact valInv_addError msg st h
  · exact h

lemma valInv_checkDirectFile (pf bn f : GoStr) (st : ValState) (h : ValInv st) :
    ValInv (checkDirectFile pf bn f st) :=
  valInv_condAdd _ _ _ (valInv_condAdd _ _ _ h)

lemma valInv_checkExportFile (pf bn f : GoStr) (st : ValState) (h : ValInv st) :
    ValInv (checkExportFile pf bn f st) := by
  unfold checkExportFile
  apply valInv_condAdd
  cases lastDashSplit (goTrimSuffix bn (goExt bn)) with
  | none => exact valInv_addError _ _ h
  | some p =>
    obtain ⟨a, b⟩ := p
    exact valInv_condAdd _ _ _ (valInv_condAdd _ _ _ h)

lemma valInv_checkInsideProject (parts : List GoStr) (pf f : GoStr) (st : ValState)
    (h : ValInv st) : ValInv (checkInsideProject parts pf f st) := by
  simp only [checkInsideProject]
  repeat' split
  all_goals repeat' first
    | exact h
    | exact valInv_checkDirectFile _ _ _ _ h
    | apply valInv_checkExportFile
    | apply valInv_addError
    | apply valInv_condAdd

lemma valInv_checkSrcPath (parts : List GoStr) (f : GoStr) (st : ValState) (h : ValInv st) :
    ValInv (checkSrcPath parts f st) := by
  simp only [checkSrcPath]
  repeat' split
  all_goals repeat' first
    | exact h
    | apply valInv_checkInsideProject
    | apply valInv_addError
    | apply valInv_condAdd

lemma valInv_checkFile (f : GoStr) (st : ValState) (h : ValInv st) :
    ValInv (checkFile f st) := by
  simp only [checkFile]
  repeat' split
  all_goals repeat' first
    | exact h
    | apply valInv_checkSrcPath
    | apply valInv_addError
    | apply valInv_condAdd

lemma valInv_foldFiles (files : List GoStr) (st : ValState) (h : ValInv st) :
    ValInv (files.foldl (fun st f => checkFile f st) st) := by
  induction files generalizing st with
  | nil => exact h
  | cons f fs ih => exact ih _ (valInv_checkFile f st h)

lemma valInv_foldRequired (idx : GoStr → Bool) (l : List GoStr) (st : ValState) (h : ValInv st) :
    ValInv (l.foldl (fun st f => condAdd (!idx f) (msgRequired f) st) st) := by
  induction l generalizing st with
  | nil => exact h
  | cons f fs ih => exact ih _ (valInv_condAdd _ _ _ h)

lemma valInv_iff (st : ValState) (h : ValInv st) : st.isValid = true ↔ st.errors = [] := by
  rw [h]
  cases st.errors <;> simp

/-- The validity flag Validate returns, expressed through the per-file fold
and the required-files conditions. -/
lemma validate_fst (idx : GoStr → Bool) (files : List GoStr) :
    (Validate idx files).fst =
      ((files.foldl (fun st f => checkFile f st) { isValid := true, errors := [] }).isValid
        && idx (gs "README.md") && idx (gs ".gitignore")) := by
  unfold Validate requiredRootFiles
  simp only [List.foldl]
  cases hR : idx (gs "README.md") <;> cases hG : idx (gs ".gitignore") <;>
    simp [condAdd, addError, hR, hG]

/-- C9: for every input, the boolean result of Validate is true exactly when
the returned violations list is empty — every recorded violation clears the
flag, so the pairs (true, non-empty) and (false, empty) cannot occur. -/
theorem c9_validate_consistency (idx : GoStr → Bool) (files : List GoStr) :
    (Validate idx files).fst = true ↔ (Validate idx files).snd = [] :=
  valInv_iff _ (valInv_foldRequired idx requiredRootFiles _ (valInv_foldFiles files _ rfl))

/-- C10: Validate performs the required-root-files check on every call: if
either README.md or .gitignore is missing from the repository index the
result is invalid whatever the changed-files list is, and on an empty
ChangeSet the validity is exactly the index membership of the two required
files — so validity depends on repository index state, not only on the
listed paths. -/
theorem c10_required_files_check (idx : GoStr → Bool) (files : List GoStr) :
    ((idx (gs "README.md") = false ∨ idx (gs ".gitignore") = false) →
      (Validate idx files).fst = false) ∧
    (Validate idx []).fst = (idx (gs "README.md") && idx (gs ".gitignore")) := by
  constructor
  · intro h
    rw [validate_fst]
    rcases h with h | h <;> simp [h]
  · rw [validate_fst]
    simp [List.foldl]

/-- C10 witness: with an index that misses both required files, a non-empty
ChangeSet consisting of a single root file is rejected. -/
theorem c10_required_files_check_witness :
    (Validate (fun _ => false) [gs "README.md"]).fst = false :=
  (c10_required_files_check (fun _ => false) [gs "README.md"]).1 (Or.inl rfl)

/-! ## C6: poisoned close of the gzip pipe -/

/-- C6: when the Transform task's read of the Source fails with error e, the
gzip goroutine closes the pipe write end with exactly that error attached
(the deferred gzip-writer close error is ignored in that case), and the
Sink's next read of the pipe read end reports the same failure e instead of
a clean end of data. -/
theorem c6_poisoned_close (e : GoStr) (gzClose : Option GoStr) :
    gzipPipeCloseErr (.error e) gzClose = some e ∧
      pipeReadAfterClose (gzipPipeCloseErr (.error e) gzClose) = .failed e :=
  ⟨rfl, rfl⟩

/-! ## C8: object key construction -/

/-- C8: the object key RunBackup uploads to is deterministic in the
configured prefix and commit hash: commit-hash.tar.gz when the prefix is
empty or trims to nothing, and otherwise the slash-trimmed prefix, a slash,
and commit-hash.tar.gz. -/
theorem c8_object_key (pfx h : GoStr) :
    mkS3Key pfx h =
      (if trimChar '/' pfx = [] then gs "commit-" ++ h ++ gs ".tar.gz"
       else trimChar '/' pfx ++ gs "/" ++ (gs "commit-" ++ h ++ gs ".tar.gz")) := by
  by_cases hp : pfx = []
  · subst hp
    simp [mkS3Key, trimChar, gs]
  · by_cases hc : trimChar '/' pfx = []
    · simp [mkS3Key, hp, hc, gs]
    · simp [mkS3Key, hp, hc, gs]

/-! ## C1, C2, C5: the check cycle -/

/-- C1: when the cycle observes a new commit H while the tracked hash was P,
it assigns H to the tracked hash before fetching the ChangeSet, and when the
fetch fails the tracked hash at the end of the cycle is P again — the event
trace is exactly the optimistic advance, the fetch, and the rollback. -/
theorem c1_rollback_on_enum_failure (last cur e : GoStr) (env : CycleEnv)
    (hcur : env.current = Except.ok cur) (hne : cur ≠ []) (hnl : cur ≠ last)
    (hch : env.changed cur = Except.error e) :
    (handleCommitCheck false last env).finalHash = last ∧
    (handleCommitCheck false last env).events =
      [.setHash cur, .fetchChanges cur, .setHash last] ∧
    (handleCommitCheck false last env).exit = .enumFailed := by
  have h1 : cur ≠ [] ∧ cur ≠ last := ⟨hne, hnl⟩
  simp [handleCommitCheck, hcur, hch, h1]

/-- Environment for the C1 witness: a new commit is observed and the
changed-files fetch fails. -/
def envC1 : CycleEnv where
  current := .ok (gs "h1")
  changed := fun _ => .error (gs "boom")
  validateFn := fun _ => (true, [])
  backupFn := fun _ => (.ok (), [])

/-- C1 witness at a concrete environment. -/
theorem c1_rollback_on_enum_failure_witness :
    (handleCommitCheck false (gs "h0") envC1).finalHash = gs "h0" ∧
    (handleCommitCheck false (gs "h0") envC1).events =
      [.setHash (gs "h1"), .fetchChanges (gs "h1"), .setHash (gs "h0")] ∧
    (handleCommitCheck false (gs "h0") envC1).exit = .enumFailed :=
  c1_rollback_on_enum_failure (gs "h0") (gs "h1") (gs "boom") envC1 rfl
    (by decide) (by decide) rfl

/-- C2: once the ChangeSet for the new commit H was fetched successfully the
tracked hash at the end of the cycle is H whatever happens next; when the
validator rejects, the cycle exits on the invalid path without any pipeline
invocation or put, and when the pipeline runs and fails the hash still stays
H (exit backupFailed, no rollback event after the advance). -/
theorem c2_advance_after_enum (last cur : GoStr) (files : List GoStr) (env : CycleEnv)
    (hcur : env.current = Except.ok cur) (hne : cur ≠ []) (hnl : cur ≠ last)
    (hch : env.changed cur = Except.ok files) :
    (handleCommitCheck false last env).finalHash = cur ∧
    ((env.validateFn files).fst = false →
      (handleCommitCheck false last env).exit = .invalid ∧
      callsPipeline (handleCommitCheck false last env).events = false) ∧
    ((env.validateFn files).fst = true → (env.backupFn cur).fst ≠ .ok () →
      (handleCommitCheck false last env).exit = .backupFailed) := by
  have h1 : cur ≠ [] ∧ cur ≠ last := ⟨hne, hnl⟩
  cases hv : (env.validateFn files).fst with
  | false =>
    refine ⟨?_, fun _ => ⟨?_, ?_⟩, fun habs => absurd habs (by simp [hv])⟩ <;>
      simp [handleCommitCheck, hcur, hch, h1, hv, callsPipeline]
  | true =>
    cases hb : (env.backupFn cur).fst with
    | ok u =>
      refine ⟨?_, fun habs => absurd habs (by simp [hv]), fun _ hne2 => absurd ?_ hne2⟩ <;>
        simp [handleCommitCheck, hcur, hch, h1, hv, hb]
    | error e =>
      refine ⟨?_, fun habs => absurd habs (by simp [hv]), fun _ _ => ?_⟩ <;>
        simp [handleCommitCheck, hcur, hch, h1, hv, hb]

/-- Environment for the C2 witness: enumeration succeeds and the validator
rejects. -/
def envC2 : CycleEnv where
  current := .ok (gs "h1")
  changed := fun _ => .ok [gs "weird name.flp"]
  validateFn := fun _ => (false, [gs "violation"])
  backupFn := fun _ => (.ok (), [.put (gs "k")])

/-- C2 witness at a concrete environment. -/
theorem c2_advance_after_enum_witness :
    (handleCommitCheck false (gs "h0") envC2).finalHash = gs "h1" ∧
    ((envC2.validateFn [gs "weird name.flp"]).fst = false →
      (handleCommitCheck false (gs "h0") envC2).exit = .invalid ∧
      callsPipeline (handleCommitCheck false (gs "h0") envC2).events = false) ∧
    ((envC2.validateFn [gs "weird name.flp"]).fst = true →
      (envC2.backupFn (gs "h1")).fst ≠ .ok () →
      (handleCommitCheck false (gs "h0") envC2).exit = .backupFailed) :=
  c2_advance_after_enum (gs "h0") (gs "h1") [gs "weird name.flp"] envC2 rfl
    (by decide) (by decide) rfl

/-- C5: when the processing token is already held, the cycle returns at once
without mutating the tracked hash, without emitting any event (so neither
validation nor the pipeline run) and without acquiring the token; when the
token is free, every cycle acquires it and releases it on its exit path,
whatever the collaborator outcomes are. -/
theorem c5_single_flight (tokenHeld : Bool) (last : GoStr) (env : CycleEnv) :
    (tokenHeld = true →
      (handleCommitCheck tokenHeld last env).finalHash = last ∧
      (handleCommitCheck tokenHeld last env).events = [] ∧
      (handleCommitCheck tokenHeld last env).acquired = false ∧
      (handleCommitCheck tokenHeld last env).exit = .tokenBusy) ∧
    (tokenHeld = false →
      (handleCommitCheck tokenHeld last env).acquired = true ∧
      (handleCommitCheck tokenHeld last env).released = true) := by
  constructor
  · intro h
    subst h
    simp [handleCommitCheck]
  · intro h
    subst h
    cases hcur : env.current with
    | error e => simp [handleCommitCheck, hcur]
    | ok cur =>
      by_cases h1 : cur ≠ [] ∧ cur ≠ last
      · cases hch : env.changed cur with
        | error e => simp [handleCommitCheck, hcur, h1, hch]
        | ok files =>
          by_cases hv : (env.validateFn files).fst = true
          · cases hb : (env.backupFn cur).fst with
            | ok u => simp [handleCommitCheck, hcur, h1, hch, hv, hb]
            | error e => simp [handleCommitCheck, hcur, h1, hch, hv, hb]
          · simp [handleCommitCheck, hcur, h1, hch, hv]
      · by_cases h2 : cur = last
        · simp [handleCommitCheck, hcur, h1, h2]
        · by_cases h0 : cur = []
          · by_cases h3 : last = [] <;> simp [handleCommitCheck, hcur, h1, h2, h0, h3]
          · exact absurd ⟨h0, h2⟩ h1

/-- C5 witness: a held token at a concrete environment drops the cycle. -/
theorem c5_single_flight_witness :
    (handleCommitCheck true (gs "p") envC1).finalHash = gs "p" ∧
    (handleCommitCheck true (gs "p") envC1).events = [] ∧
    (handleCommitCheck true (gs "p") envC1).acquired = false ∧
    (handleCommitCheck true (gs "p") envC1).exit = .tokenBusy :=
  (c5_single_flight true (gs "p") envC1).1 rfl

/-! ## C4: startup behaviour on watch failures -/

/-- Startup environment for the C4 counterexample: the metadata directory
exists and the watcher is constructed, but adding a watch fails for every
path, so no watch at all is added. -/
def startEnvC4 : StartEnv where
  gitDirExists := true
  initialHash := .ok (gs "aaa")
  watcherOk := true
  statOk := fun _ => true
  addRecursiveWatchOk := fun _ => false

/-- C4 counterexample: with every watch-add failing (zero watches added)
startup still enters the event loop — it records both failures and is not
fatal, contradicting the claim that the process terminates before the event
loop when no watch can be added. -/
theorem c4_no_watch_counterexample :
    Start (gs "/repo") startEnvC4 = .eventLoop (gs "aaa") 2 ∧
    (Start (gs "/repo") startEnvC4).isFatal = false := by
  exact ⟨rfl, rfl⟩

/-- C4 amended: startup is fatal exactly when the metadata directory is
missing or the watcher cannot be constructed; watch-add failures — even all
of them — are only counted and warned about, and the process continues into
the event loop. -/
theorem c4_startup_fatal_amended (repoPath : GoStr) (env : StartEnv) :
    (Start repoPath env).isFatal = true ↔
      (env.gitDirExists = false ∨ env.watcherOk = false) := by
  unfold Start
  cases hg : env.gitDirExists <;> cases hw : env.watcherOk <;>
    simp [StartOutcome.isFatal, hg, hw]

/-! ## C3: the end-to-end example commit -/

/-- Repository index for the C3 scenario: exactly the two required root
files are tracked. -/
def idxC3 : GoStr → Bool :=
  fun f => decide (f = gs "README.md") || decide (f = gs ".gitignore")

/-- The changed files of the spec's end-to-end example for commit abc123. -/
def filesC3 : List GoStr :=
  [gs "README.md", gs "src/projects/song-artist-feat-x-120bpm-prodby.me/song.flp"]

/-- The changed files with the project file named after its folder, which is
what the validator's filename-base rule requires. -/
def filesC3amended : List GoStr :=
  [gs "README.md",
   gs "src/projects/song-artist-feat-x-120bpm-prodby.me/song-artist-feat-x-120bpm-prodby.me.flp"]

/-- Backup configuration for the C3 scenario: a bucket and no key prefix. -/
def cfgC3 : BackupConfig where
  bucket := gs "prodby-backups"
  endpointURL := gs ""
  region := gs ""
  pfx := gs ""
  accessKeyID := gs ""
  secretKey := gs ""

/-- Backup environment for the C3 scenario: every external call succeeds. -/
def benvC3 : BackupEnv where
  sdkLoad := .ok ()
  stdoutPipe := .ok ()
  startArchive := .ok ()
  putObject := fun _ => .ok ()
  waitArchive := .ok ()

/-- Cycle environment for the C3 scenario as written in the spec: commit
abc123 is observed, its ChangeSet is the example file list, the real
validator runs against the index, and the real backup embedding runs. -/
def envC3 : CycleEnv where
  current := .ok (gs "abc123")
  changed := fun _ => .ok filesC3
  validateFn := Validate idxC3
  backupFn := fun h => RunBackup cfgC3 h benvC3

/-- Cycle environment for the amended C3 scenario (project file named after
its folder). -/
def envC3amended : CycleEnv where
  current := .ok (gs "abc123")
  changed := fun _ => .ok filesC3amended
  validateFn := Validate idxC3
  backupFn := fun h => RunBackup cfgC3 h benvC3

/-- C3 counterexample: the example commit of the claim does not pass
validation — the validator requires the project filename base to equal the
folder name, so song.flp is rejected with exactly one violation — and the
cycle therefore exits on the invalid path without any put. -/
theorem c3_end_to_end_counterexample :
    (Validate idxC3 filesC3).fst = false ∧
    (Validate idxC3 filesC3).snd.length = 1 ∧
    (handleCommitCheck false (gs "") envC3).exit = .invalid ∧
    putKeys (handleCommitCheck false (gs "") envC3).events = [] := by
  refine ⟨?_, ?_, ?_, ?_⟩ <;> decide

/-- C3 amended: the same commit with the project file named after its folder
passes validation, and the cycle performs exactly one successful put to the
object key commit-abc123.tar.gz, ending with the tracked hash advanced. -/
theorem c3_end_to_end_amended :
    (Validate idxC3 filesC3amended).fst = true ∧
    (handleCommitCheck false (gs "") envC3amended).exit = .backupOk ∧
    putKeys (handleCommitCheck false (gs "") envC3amended).events = [gs "commit-abc123.tar.gz"] ∧
    (handleCommitCheck false (gs "") envC3amended).finalHash = gs "abc123" := by
  refine ⟨?_, ?_, ?_, ?_⟩ <;> decide

/-! ## C7: ChangeSet resolution from the name-status listing -/

lemma splitOnC_ne_nil (c : Char) (s : GoStr) : splitOnC c s ≠ [] := by
  induction s with
  | nil => simp [splitOnC]
  | cons x xs ih =>
    obtain ⟨f, rest, h⟩ := List.exists_cons_of_ne_nil ih
    simp only [splitOnC, h]
    by_cases hx : x = c <;> simp [hx]

lemma splitOnC_eq_single (c : Char) (s : GoStr) (h : ∀ x ∈ s, x ≠ c) :
    splitOnC c s = [s] := by
  induction s with
  | nil => rfl
  | cons x xs ih =>
    simp only [splitOnC, ih (fun y hy => h y (List.mem_cons_of_mem _ hy))]
    simp [h x (List.mem_cons_self _ _)]

lemma splitOnC_append (c : Char) (a s : GoStr) (h : ∀ x ∈ a, x ≠ c) :
    splitOnC c (a ++ c :: s) = a :: splitOnC c s := by
  induction a with
  | nil =>
    obtain ⟨f, rest, hs⟩ := List.exists_cons_of_ne_nil (splitOnC_ne_nil c s)
    simp only [List.nil_append, splitOnC, hs]
    simp
  | cons x xs ih =>
    have hx : x ≠ c := h x (List.mem_cons_self _ _)
    rw [List.cons_append]
    simp only [splitOnC]
    rw [ih (fun y hy => h y (List.mem_cons_of_mem _ hy))]
    simp [hx]

lemma head?_reverse_eq_getLast? (l : GoStr) : l.reverse.head? = l.getLast? := by
  induction l with
  | nil => rfl
  | cons x xs ih =>
    cases xs with
    | nil => rfl
    | cons y ys =>
      rw [List.reverse_cons, List.head?_append_of_ne_nil _ (by simp), ih,
        List.getLast?_cons_cons]

lemma dropWhile_eq_self_of_head (p : Char → Bool) (l : GoStr)
    (h : ∀ x ∈ l.head?, p x = false) : l.dropWhile p = l := by
  cases l with
  | nil => rfl
  | cons x xs => simp [List.dropWhile_cons, h x rfl]

lemma trimSpace_eq_self (l : GoStr)
    (h1 : ∀ x ∈ l.head?, x.isWhitespace = false)
    (h2 : ∀ x ∈ l.getLast?, x.isWhitespace = false) : trimSpace l = l := by
  unfold trimSpace
  rw [dropWhile_eq_self_of_head _ _ h1,
    dropWhile_eq_self_of_head _ _ (by rw [head?_reverse_eq_getLast?]; exact h2),
    List.reverse_reverse]

lemma fieldOk_forall {f : GoStr} (h : fieldOk f = true) : ∀ x ∈ f, x ≠ '\t' := by
  simpa [fieldOk, List.all_eq_true] using h

lemma lastFieldOk_parts {f : GoStr} (h : lastFieldOk f = true) :
    (∀ x ∈ f, x ≠ '\t') ∧ f ≠ [] ∧ (∀ x ∈ f.getLast?, x.isWhitespace = false) := by
  simp only [lastFieldOk, Bool.and_eq_true, decide_eq_true_eq, Bool.not_eq_true'] at h
  obtain ⟨⟨hf, hne⟩, hws⟩ := h
  refine ⟨fieldOk_forall hf, hne, ?_⟩
  intro x hx
  have hd : f.getLastD ' ' = x := by
    rw [List.getLastD_eq_getLast?, hx]
    rfl
  rw [← hd]
  exact hws

lemma statusOk_parts {s : GoStr} (h : statusOk s = true) :
    (∀ x ∈ s, x ≠ '\t') ∧ s ≠ [] ∧ (∀ x ∈ s.head?, x.isWhitespace = false) := by
  simp only [statusOk, Bool.and_eq_true, decide_eq_true_eq, Bool.not_eq_true'] at h
  obtain ⟨⟨hf, hne⟩, hws⟩ := h
  refine ⟨fieldOk_forall hf, hne, ?_⟩
  intro x hx
  cases s with
  | nil => simp at hx
  | cons a as =>
    simp only [List.head?] at hx
    have : a = x := by simpa using hx
    subst this
    simpa [List.headD] using hws

lemma startsWithChar_ne {a b : Char} (s : GoStr) (h : startsWithChar a s = true)
    (hab : b ≠ a) : startsWithChar b s = false := by
  cases s with
  | nil => simp [startsWithChar] at h
  | cons x xs =>
    simp only [startsWithChar, decide_eq_true_eq] at h
    subst h
    simp [startsWithChar]
    exact fun hh => hab hh.symm

lemma getLast?_threeFields (s o n : GoStr) (hn : n ≠ []) :
    (s ++ '\t' :: (o ++ '\t' :: n)).getLast? = n.getLast? := by
  rw [List.getLast?_append_of_ne_nil _ (by simp : ('\t' :: (o ++ '\t' :: n) : GoStr) ≠ []),
    show ('\t' :: (o ++ '\t' :: n) : GoStr) = ['\t'] ++ (o ++ '\t' :: n) from rfl,
    List.getLast?_append_of_ne_nil _ (by simp : (o ++ '\t' :: n : GoStr) ≠ []),
    List.getLast?_append_of_ne_nil _ (by simp : ('\t' :: n : GoStr) ≠ []),
    show ('\t' :: n : GoStr) = ['\t'] ++ n from rfl,
    List.getLast?_append_of_ne_nil _ hn]

lemma getLast?_twoFields (s p : GoStr) (hp : p ≠ []) :
    (s ++ '\t' :: p).getLast? = p.getLast? := by
  rw [List.getLast?_append_of_ne_nil _ (by simp : ('\t' :: p : GoStr) ≠ []),
    show ('\t' :: p : GoStr) = ['\t'] ++ p from rfl,
    List.getLast?_append_of_ne_nil _ hp]

lemma process_rename (acc : List GoStr) (s o n : GoStr)
    (hs : statusOk s = true) (hR : startsWithChar 'R' s = true)
    (ho : fieldOk o = true) (hn : lastFieldOk n = true) :
    processNameStatusLine acc (s ++ '\t' :: (o ++ '\t' :: n)) = acc ++ [n] := by
  obtain ⟨hsTab, hsne, hsHead⟩ := statusOk_parts hs
  obtain ⟨hnTab, hnne, hnLast⟩ := lastFieldOk_parts hn
  have hoTab := fieldOk_forall ho
  have hline : trimSpace (s ++ '\t' :: (o ++ '\t' :: n)) = s ++ '\t' :: (o ++ '\t' :: n) := by
    refine trimSpace_eq_self _ ?_ ?_
    · rw [List.head?_append_of_ne_nil _ hsne]
      exact hsHead
    · rw [getLast?_threeFields s o n hnne]
      exact hnLast
  have hsplit : splitOnC '\t' (s ++ '\t' :: (o ++ '\t' :: n)) = [s, o, n] := by
    rw [splitOnC_append _ _ _ hsTab, splitOnC_append _ _ _ hoTab,
      splitOnC_eq_single _ _ hnTab]
  have h2 : goSplitN '\t' (s ++ '\t' :: (o ++ '\t' :: n)) 2 = [s, o ++ '\t' :: n] := by
    simp [goSplitN, hsplit, intercalateC]
  have h3 : goSplitN '\t' (s ++ '\t' :: (o ++ '\t' :: n)) 3 = [s, o, n] := by
    simp [goSplitN, hsplit]
  have hlineNe : (s ++ '\t' :: (o ++ '\t' :: n) : GoStr) ≠ [] := by simp
  simp [processNameStatusLine, hline, hlineNe, h2, h3, hR]

lemma process_copy (acc : List GoStr) (s o n : GoStr)
    (hs : statusOk s = true) (hC : startsWithChar 'C' s = true)
    (ho : fieldOk o = true) (hn : lastFieldOk n = true) :
    processNameStatusLine acc (s ++ '\t' :: (o ++ '\t' :: n)) = acc ++ [n] := by
  obtain ⟨hsTab, hsne, hsHead⟩ := statusOk_parts hs
  obtain ⟨hnTab, hnne, hnLast⟩ := lastFieldOk_parts hn
  have hoTab := fieldOk_forall ho
  have hR : startsWithChar 'R' s = false := startsWithChar_ne s hC (by decide)
  have hline : trimSpace (s ++ '\t' :: (o ++ '\t' :: n)) = s ++ '\t' :: (o ++ '\t' :: n) := by
    refine trimSpace_eq_self _ ?_ ?_
    · rw [List.head?_append_of_ne_nil _ hsne]
      exact hsHead
    · rw [getLast?_threeFields s o n hnne]
      exact hnLast
  have hsplit : splitOnC '\t' (s ++ '\t' :: (o ++ '\t' :: n)) = [s, o, n] := by
    rw [splitOnC_append _ _ _ hsTab, splitOnC_append _ _ _ hoTab,
      splitOnC_eq_single _ _ hnTab]
  have h2 : goSplitN '\t' (s ++ '\t' :: (o ++ '\t' :: n)) 2 = [s, o ++ '\t' :: n] := by
    simp [goSplitN, hsplit, intercalateC]
  have h3 : goSplitN '\t' (s ++ '\t' :: (o ++ '\t' :: n)) 3 = [s, o, n] := by
    simp [goSplitN, hsplit]
  have hlineNe : (s ++ '\t' :: (o ++ '\t' :: n) : GoStr) ≠ [] := by simp
  simp [processNameStatusLine, hline, hlineNe, h2, h3, hR, hC]

lemma process_delete (acc : List GoStr) (p : GoStr) (hp : lastFieldOk p = true) :
    processNameStatusLine acc (gs "D" ++ '\t' :: p) = acc := by
  obtain ⟨hpTab, hpne, hpLast⟩ := lastFieldOk_parts hp
  have hline : trimSpace (gs "D" ++ '\t' :: p) = gs "D" ++ '\t' :: p := by
    refine trimSpace_eq_self _ ?_ ?_
    · rw [List.head?_append_of_ne_nil _ (by decide)]
      intro x hx
      simp [gs] at hx
      subst hx
      rfl
    · rw [getLast?_twoFields _ _ hpne]
      exact hpLast
  have hsplit : splitOnC '\t' (gs "D" ++ '\t' :: p) = [gs "D", p] := by
    rw [splitOnC_append _ _ _ (by decide), splitOnC_eq_single _ _ hpTab]
  have h2 : goSplitN '\t' (gs "D" ++ '\t' :: p) 2 = [gs "D", p] := by
    simp [goSplitN, hsplit]
  have hlineNe : (gs "D" ++ '\t' :: p : GoStr) ≠ [] := by simp [gs]
  simp [processNameStatusLine, hline, hlineNe, h2,
    (by decide : startsWithChar 'R' (gs "D") = false),
    (by decide : startsWithChar 'C' (gs "D") = false)]

lemma process_other (acc : List GoStr) (s p : GoStr)
    (hs : statusOk s = true) (hR : startsWithChar 'R' s = false)
    (hC : startsWithChar 'C' s = false) (hD : s ≠ gs "D")
    (hp : lastFieldOk p = true) :
    processNameStatusLine acc (s ++ '\t' :: p) = acc ++ [p] := by
  obtain ⟨hsTab, hsne, hsHead⟩ := statusOk_parts hs
  obtain ⟨hpTab, hpne, hpLast⟩ := lastFieldOk_parts hp
  have hline : trimSpace (s ++ '\t' :: p) = s ++ '\t' :: p := by
    refine trimSpace_eq_self _ ?_ ?_
    · rw [List.head?_append_of_ne_nil _ hsne]
      exact hsHead
    · rw [getLast?_twoFields _ _ hpne]
      exact hpLast
  have hsplit : splitOnC '\t' (s ++ '\t' :: p) = [s, p] := by
    rw [splitOnC_append _ _ _ hsTab, splitOnC_eq_single _ _ hpTab]
  have h2 : goSplitN '\t' (s ++ '\t' :: p) 2 = [s, p] := by
    simp [goSplitN, hsplit]
  have hlineNe : (s ++ '\t' :: p : GoStr) ≠ [] := by simp
  simp [processNameStatusLine, hline, hlineNe, h2, hR, hC, hD]

lemma process_blank (acc : List GoStr) : processNameStatusLine acc [] = acc := rfl

lemma process_render (acc : List GoStr) (e : NSEntry) (h : e.wf = true) :
    processNameStatusLine acc e.render = acc ++ e.contribution := by
  cases e with
  | rename s o n =>
    simp only [NSEntry.wf, Bool.and_eq_true] at h
    obtain ⟨⟨⟨h1, h2⟩, h3⟩, h4⟩ := h
    simpa [NSEntry.render, NSEntry.contribution] using process_rename acc s o n h1 h2 h3 h4
  | copy s o n =>
    simp only [NSEntry.wf, Bool.and_eq_true] at h
    obtain ⟨⟨⟨h1, h2⟩, h3⟩, h4⟩ := h
    simpa [NSEntry.render, NSEntry.contribution] using process_copy acc s o n h1 h2 h3 h4
  | delete p =>
    simp only [NSEntry.wf] at h
    simpa [NSEntry.render, NSEntry.contribution] using process_delete acc p h
  | other s p =>
    simp only [NSEntry.wf, Bool.and_eq_true, Bool.not_eq_true', decide_eq_true_eq] at h
    obtain ⟨⟨⟨⟨h1, h2⟩, h3⟩, h4⟩, h5⟩ := h
    simpa [NSEntry.render, NSEntry.contribution] using process_other acc s p h1 h2 h3 h4 h5
  | blank =>
    simpa [NSEntry.render, NSEntry.contribution] using process_blank acc

lemma foldl_process_render (es : List NSEntry) (acc : List GoStr)
    (h : es.all NSEntry.wf = true) :
    (es.map NSEntry.render).foldl processNameStatusLine acc = acc ++ specChangeSet es := by
  induction es generalizing acc with
  | nil => simp [specChangeSet]
  | cons e es ih =>
    simp only [List.all_cons, Bool.and_eq_true] at h
    simp only [List.map_cons, List.foldl_cons, specChangeSet]
    rw [process_render acc e h.1, ih _ h.2, List.append_assoc]

/-- C7: for every well-formed name-status listing, the ChangeSet the parser
produces is the ordered sequence in which each rename and each copy line
contributes only its destination path, each deletion line contributes
nothing, and every other non-empty status line contributes its single path,
in listing order. -/
theorem c7_changeset_resolution (es : List NSEntry) (h : es.all NSEntry.wf = true) :
    getChangedFilesInCommit (es.map NSEntry.render) = specChangeSet es := by
  unfold getChangedFilesInCommit
  simpa using foldl_process_render es [] h

/-- A concrete listing exercising every entry kind for the C7 witness. -/
def entriesC7 : List NSEntry :=
  [.other (gs "M") (gs "README.md"),
   .rename (gs "R100") (gs "old.txt") (gs "new.txt"),
   .delete (gs "gone.txt"),
   .copy (gs "C75") (gs "a.txt") (gs "b.txt"),
   .other (gs "A") (gs "added.md"),
   .blank]

/-- C7 witness: the concrete listing is well formed and the parser output on
its rendered lines is the resolved ChangeSet. -/
theorem c7_changeset_resolution_witness :
    entriesC7.all NSEntry.wf = true ∧
    getChangedFilesInCommit (entriesC7.map NSEntry.render) =
      [gs "README.md", gs "new.txt", gs "b.txt", gs "added.md"] ∧
    specChangeSet entriesC7 = [gs "README.md", gs "new.txt", gs "b.txt", gs "added.md"] :=
  ⟨by decide,
   by rw [c7_changeset_resolution entriesC7 (by decide)]; decide,
   by decide⟩
